import Mathlib

/-!
Shallow embedding of the K-12 FAQ chatbot backend, centred on the FAQ search
and keyword-derivation engine of `server/src/handlers/faqs.ts`.  The relational
store (Postgres accessed through drizzle) is modelled as in-memory lists of
rows; each handler becomes a pure function over an explicit `Store` value.
Timestamps and row ids are modelled as `Nat`.
-/

namespace FaqBot

/-! ## Character and text processing -/

/-- One-character lowering as JS `String.prototype.toLowerCase` acts on the
basic latin letters (the only case-bearing characters this code base deals
with); this is Lean core's `Char.toLower`. -/
def lowerChar (c : Char) : Char := Char.toLower c

/-- Lower-casing of a character list (`text.toLowerCase()`). -/
def lowerList (cs : List Char) : List Char := cs.map lowerChar

/-- ASCII upper-case letter test, used to state that derived text carries no
upper-case letters. -/
def isUpperAscii (c : Char) : Bool := decide (65 ≤ c.toNat ∧ c.toNat ≤ 90)

/-- JS regex word-character class `\w`, that is `[A-Za-z0-9_]`. -/
def isWordChar (c : Char) : Bool := c.isAlphanum || c == '_'

/-- Maximal runs of characters satisfying `p`, in text order; the accumulator
holds the current run reversed.  `text.match(/\b\w{3,}\b/g)` returns exactly
the maximal `\w`-runs of length at least 3, so the run extraction is shared and
the length filter applied separately. -/
def runsAux (p : Char → Bool) : List Char → List Char → List (List Char)
  | [], acc => if acc.isEmpty then [] else [acc.reverse]
  | c :: cs, acc =>
    if p c then runsAux p cs (c :: acc)
    else if acc.isEmpty then runsAux p cs acc
    else acc.reverse :: runsAux p cs []

def runsOf (p : Char → Bool) (cs : List Char) : List (List Char) := runsAux p cs []

/-- Keyword candidates of `generateKeywords` (`handlers/faqs.ts` lines 17-18):
`` `${question} ${answer}`.toLowerCase().match(/\b\w{3,}\b/g) || [] ``. -/
def keywordCandidates (question answer : String) : List String :=
  ((runsOf isWordChar (lowerList (question ++ " " ++ answer).data)).filter
    (fun r => 3 ≤ r.length)).map (fun r => String.mk r)

/-- First-occurrence deduplication with an explicit seen set: the insertion
order semantics of JS `[...new Set(words)]`, also used for the output of SQL
`GROUP BY` (whose order the spec leaves as "grouping order"). -/
def dedupSeen {α : Type} [DecidableEq α] (seen : List α) : List α → List α
  | [] => []
  | x :: xs => if x ∈ seen then dedupSeen seen xs else x :: dedupSeen (x :: seen) xs

def dedupKeepFirst {α : Type} [DecidableEq α] (l : List α) : List α := dedupSeen [] l

/-- `generateKeywords` from `handlers/faqs.ts` (lines 16-20). -/
def generateKeywords (question answer : String) : List String :=
  dedupKeepFirst (keywordCandidates question answer)

/-- Position of the first occurrence of `x`, used to state first-seen order. -/
def firstPos {α : Type} [DecidableEq α] (x : α) : List α → Nat
  | [] => 0
  | y :: ys => if y = x then 0 else firstPos x ys + 1

/-- JS `String.prototype.split(/\s+/)` on a character list.  The state is
`some acc` while a field (reversed in `acc`) is being accumulated, and `none`
inside a separator run whose preceding field was already emitted.  As in JS, a
leading or trailing separator contributes an empty field and the empty input
yields one empty field. -/
def splitWsAux : List Char → Option (List Char) → List (List Char)
  | [], some acc => [acc.reverse]
  | [], none => [[]]
  | c :: cs, some acc =>
    if c.isWhitespace then acc.reverse :: splitWsAux cs none
    else splitWsAux cs (some (c :: acc))
  | c :: cs, none =>
    if c.isWhitespace then splitWsAux cs none
    else splitWsAux cs (some [c])

def splitWs (cs : List Char) : List (List Char) := splitWsAux cs (some [])

/-- The chatbot search-term list (`handlers/faqs.ts` line 74):
`input.query.toLowerCase().split(/\s+/).filter(term => term.length > 2)`. -/
def searchTermsOf (query : String) : List String :=
  ((splitWs (lowerList query.data)).map (fun t => String.mk t)).filter
    (fun t => 2 < t.length)

/-! ## Data model -/

/-- A row of `schoolsTable`, restricted to the columns the FAQ core reads. -/
structure School where
  id : Nat
  domain : String
  is_active : Bool
deriving DecidableEq

/-- A row of `faqsTable`. -/
structure Faq where
  id : Nat
  school_id : Nat
  category : String
  question : String
  answer : String
  keywords : List String
  is_active : Bool
  created_by : Nat
  created_at : Nat
  updated_at : Nat
deriving DecidableEq

/-- The record store: the two tables the FAQ handlers touch, plus the serial
id counter of `faqsTable`. -/
structure Store where
  schools : List School
  faqs : List Faq
  nextFaqId : Nat
deriving DecidableEq

structure ChatbotQueryInput where
  school_domain : String
  query : String
  category : Option String
deriving DecidableEq

structure ChatbotResponse where
  faqs : List Faq
  suggested_categories : List String
  total_results : Nat
deriving DecidableEq

/-! ## Search -/

/-- `FROM faqs INNER JOIN schools ON faqs.school_id = schools.id`. -/
def joinRows (st : Store) : List (Faq × School) :=
  st.faqs.flatMap (fun f =>
    (st.schools.filter (fun s => s.id == f.school_id)).map (fun s => (f, s)))

/-- The text form of the `keywords` column under `::text`, as matched by
`keywords::text ILIKE '%term%'`.  The drizzle schema (`server/src/db/schema.ts`,
embedded at the end of `server/src/tests/faqs.test.ts`) declares `keywords` a
`json` column and drizzle stores the `JSON.stringify` output, so the cast
yields the compact JSON array text, for example `["admission","requirements"]`.
JSON escaping inside an element (quotes, backslashes) is not modelled; the
keywords the code derives consist of word characters only. -/
def keywordsText (kws : List String) : String :=
  "[" ++ String.intercalate "," (kws.map (fun k => "\"" ++ k ++ "\"")) ++ "]"

/-- Step-bounded matcher of a Postgres `LIKE` pattern against a text: `%`
matches any sequence, `_` matches exactly one character, and a backslash (the
default escape character) makes the following pattern character literal.  The
first argument is only a structural-recursion bound; every recursive call
shortens the pattern or the text, so `pattern.length + text.length + 1` steps
always reach a base case. -/
def likeMatch : Nat → List Char → List Char → Bool
  | 0, _, _ => false
  | _ + 1, [], text => text.isEmpty
  | n + 1, '%' :: ps, text =>
    likeMatch n ps text ||
      (match text with
       | [] => false
       | _ :: ts => likeMatch n ('%' :: ps) ts)
  | n + 1, '_' :: ps, text =>
    (match text with
     | [] => false
     | _ :: ts => likeMatch n ps ts)
  | n + 1, '\\' :: p :: ps, text =>
    (match text with
     | [] => false
     | t :: ts => p == t && likeMatch n ps ts)
  | n + 1, p :: ps, text =>
    (match text with
     | [] => false
     | t :: ts => p == t && likeMatch n ps ts)

/-- `column ILIKE '%' + term + '%'`: case-insensitive `LIKE`, lowering both
sides.  The term sits between two `%` wildcards and may itself contain `%`,
`_` or the escape character with their pattern meanings.  (A pattern ending in
a lone escape character is an error in Postgres; here a trailing backslash
matches itself.) -/
def ciContains (hay term : String) : Bool :=
  let pattern := '%' :: (lowerList term.data ++ ['%'])
  let text := lowerList hay.data
  likeMatch (pattern.length + text.length + 1) pattern text

/-- The per-term disjunction of `handlers/faqs.ts` line 105: the question, the
answer, or the textual form of the keywords array contains the term. -/
def termMatches (f : Faq) (term : String) : Bool :=
  ciContains f.question term || ciContains f.answer term
    || ciContains (keywordsText f.keywords) term

/-- The conjunction of all `WHERE` conditions assembled by `searchFaqs`
(lines 91-114): base tenant/active conditions, optional category condition,
and — only when the token list is non-empty — the OR of the per-term tests. -/
def searchCond (input : ChatbotQueryInput) (terms : List String) (r : Faq × School) : Bool :=
  r.2.domain == input.school_domain && r.1.is_active && r.2.is_active
    && (match input.category with
        | some c => r.1.category == c
        | none => true)
    && (terms.isEmpty || terms.any (termMatches r.1))

/-- The base conditions of the suggested-categories query of `searchFaqs`
(lines 128-132), identical to those of `getAvailableCategories` (272-276). -/
def activeTenantCond (domain : String) (r : Faq × School) : Bool :=
  r.2.domain == domain && r.1.is_active && r.2.is_active

/-- The `ORDER BY created_at DESC` ordering relation. -/
def createdAtGe (a b : Faq) : Prop := b.created_at ≤ a.created_at

instance : DecidableRel createdAtGe := fun a b => Nat.decLe b.created_at a.created_at

/-- `ORDER BY created_at DESC`. -/
def sortByCreatedAtDesc (l : List Faq) : List Faq := l.insertionSort createdAtGe

/-- `searchFaqs` (lines 72-147). -/
def searchFaqs (st : Store) (input : ChatbotQueryInput) : ChatbotResponse :=
  let terms := searchTermsOf input.query
  let faqs := (sortByCreatedAtDesc
      (((joinRows st).filter (searchCond input terms)).map Prod.fst)).take 20
  { faqs := faqs,
    suggested_categories := dedupKeepFirst
      (((joinRows st).filter (activeTenantCond input.school_domain)).map
        (fun r => r.1.category)),
    total_results := faqs.length }

/-- `getAvailableCategories` (lines 265-285). -/
def getAvailableCategories (st : Store) (domain : String) : List String :=
  dedupKeepFirst
    (((joinRows st).filter (activeTenantCond domain)).map (fun r => r.1.category))

/-! ## Create and update -/

structure CreateFaqInput where
  school_id : Nat
  category : String
  question : String
  answer : String
  keywords : Option (List String)
deriving DecidableEq

/-- `createFaq` (lines 165-200): verify the school exists, take the supplied
keywords when present and non-empty (else derive them), and insert the row
with `is_active: true`. -/
def createFaq (st : Store) (input : CreateFaqInput) (createdBy : Nat) (now : Nat) :
    Except String (Faq × Store) :=
  if (st.schools.filter (fun s => s.id == input.school_id)).isEmpty then
    Except.error "School not found"
  else
    let keywords :=
      match input.keywords with
      | some ks => if 0 < ks.length then ks else generateKeywords input.question input.answer
      | none => generateKeywords input.question input.answer
    let faq : Faq :=
      { id := st.nextFaqId, school_id := input.school_id, category := input.category,
        question := input.question, answer := input.answer, keywords := keywords,
        is_active := true, created_by := createdBy, created_at := now, updated_at := now }
    Except.ok (faq, { st with faqs := st.faqs ++ [faq], nextFaqId := st.nextFaqId + 1 })

structure UpdateFaqInput where
  id : Nat
  category : Option String
  question : Option String
  answer : Option String
  keywords : Option (List String)
  is_active : Option Bool
deriving DecidableEq

/-- `getFaqById` (lines 150-162): `results[0] || null`. -/
def getFaqById (st : Store) (id : Nat) : Option Faq :=
  (st.faqs.filter (fun f => f.id == id)).head?

/-- The partial `updateValues` record assembled by `updateFaq` (lines 212-234). -/
structure UpdateValues where
  category : Option String
  question : Option String
  answer : Option String
  is_active : Option Bool
  keywords : Option (List String)
deriving DecidableEq

/-- JS `input.field || currentFaq.field`: the empty string is falsy. -/
def jsOrElse (new : Option String) (old : String) : String :=
  match new with
  | some s => if s == "" then old else s
  | none => old

/-- Lines 214-234: copy the supplied fields; store the supplied keywords when
present, else regenerate them exactly when the question or answer changed. -/
def updateValuesFor (input : UpdateFaqInput) (currentFaq : Faq) : UpdateValues :=
  { category := input.category,
    question := input.question,
    answer := input.answer,
    is_active := input.is_active,
    keywords :=
      match input.keywords with
      | some ks => some ks
      | none =>
        if input.question.isSome || input.answer.isSome then
          some (generateKeywords (jsOrElse input.question currentFaq.question)
            (jsOrElse input.answer currentFaq.answer))
        else none }

/-- `db.update(faqsTable).set(updateValues)` applied to one row. -/
def applyValues (vals : UpdateValues) (f : Faq) : Faq :=
  { f with
    category := vals.category.getD f.category,
    question := vals.question.getD f.question,
    answer := vals.answer.getD f.answer,
    is_active := vals.is_active.getD f.is_active,
    keywords := vals.keywords.getD f.keywords }

/-- `updateFaq` (lines 203-247). -/
def updateFaq (st : Store) (input : UpdateFaqInput) : Except String (Faq × Store) :=
  match getFaqById st input.id with
  | none => Except.error "FAQ not found"
  | some currentFaq =>
    let vals := updateValuesFor input currentFaq
    Except.ok (applyValues vals currentFaq,
      { st with
        faqs := st.faqs.map (fun f => if f.id == input.id then applyValues vals f else f) })

/-! ## Input validation

The zod input schemas of `server/src/schema.ts` (its full content is embedded
at the end of `server/src/tests/faqs.test.ts`): `createFaqInputSchema` and
`updateFaqInputSchema` run on every input before the tRPC routes of
`server/src/index.ts` invoke the handlers. -/

/-- `faqCategorySchema` from `server/src/schema.ts`:
`z.enum(['admissions', 'academic_programs', 'campus_life', 'contact_support',
'general_info'])`. -/
def validCategory (c : String) : Bool :=
  c == "admissions" || c == "academic_programs" || c == "campus_life"
    || c == "contact_support" || c == "general_info"

inductive FaqError where
  | validationFailure
  | handlerError (msg : String)
deriving DecidableEq

/-- `createFaqInputSchema` from `server/src/schema.ts`: `question` and `answer`
are `z.string().min(1)` (non-empty), `category` is `faqCategorySchema`, and
`school_id`/`keywords` carry no value constraint.  A failing parse rejects the
request before the handler — and hence before any store mutation — runs. -/
def validateCreateFaq (input : CreateFaqInput) : Bool :=
  input.question != "" && input.answer != "" && validCategory input.category

/-- `updateFaqInputSchema` from `server/src/schema.ts`: the same rules as on
create, each applied only when the optional field is present
(`z.string().min(1).optional()`, `faqCategorySchema.optional()`). -/
def validateUpdateFaq (input : UpdateFaqInput) : Bool :=
  (match input.question with | some q => q != "" | none => true)
    && (match input.answer with | some a => a != "" | none => true)
    && (match input.category with | some c => validCategory c | none => true)

/-- The create operation as exposed by the tRPC route
`.input(createFaqInputSchema).mutation(createFaq)`: validation precedes the
handler, so a rejected input leaves the store untouched. -/
def createFaqChecked (st : Store) (input : CreateFaqInput) (createdBy : Nat) (now : Nat) :
    Except FaqError Faq × Store :=
  if validateCreateFaq input then
    match createFaq st input createdBy now with
    | Except.ok (f, st') => (Except.ok f, st')
    | Except.error m => (Except.error (FaqError.handlerError m), st)
  else (Except.error FaqError.validationFailure, st)

/-- The update operation as exposed by the tRPC route
`.input(updateFaqInputSchema).mutation(updateFaq)`. -/
def updateFaqChecked (st : Store) (input : UpdateFaqInput) : Except FaqError Faq × Store :=
  if validateUpdateFaq input then
    match updateFaq st input with
    | Except.ok (f, st') => (Except.ok f, st')
    | Except.error m => (Except.error (FaqError.handlerError m), st)
  else (Except.error FaqError.validationFailure, st)

/-! ## Spec-side comparison definition -/

/-- Spec sections 4.2/4.3, stated from the spec's words: with an empty token
sequence no term predicate is applied, so matching is determined solely by the
tenant, the active flags and the optional category filter. -/
def specFilterOnlyFaqs (st : Store) (input : ChatbotQueryInput) : List Faq :=
  (sortByCreatedAtDesc
    (((joinRows st).filter (fun r =>
      r.2.domain == input.school_domain && r.1.is_active && r.2.is_active
        && (match input.category with
            | some c => r.1.category == c
            | none => true))).map Prod.fst)).take 20

/-! ## Concrete data for witnesses -/

def demoSchool : School := { id := 1, domain := "acme.edu", is_active := true }

def demoFaq : Faq :=
  { id := 1, school_id := 1, category := "admissions",
    question := "What are the admission requirements?",
    answer := "A diploma and test scores.",
    keywords := ["admission", "requirements", "diploma"],
    is_active := true, created_by := 1, created_at := 10, updated_at := 10 }

def demoStore : Store := { schools := [demoSchool], faqs := [demoFaq], nextFaqId := 2 }

def demoQuery : ChatbotQueryInput :=
  { school_domain := "acme.edu", query := "admission requirements", category := none }

/-- A create input whose texts contain no word-character run of length three or
more, so keyword derivation yields the empty list. -/
def shortTextInput : CreateFaqInput :=
  { school_id := 1, category := "admissions", question := "Hi?", answer := "No.",
    keywords := none }

/-- The row `createFaq` inserts for `shortTextInput`: derivation finds no word
run of length three or more, so the stored keywords are empty. -/
def createdShortFaq : Faq :=
  { id := 2, school_id := 1, category := "admissions", question := "Hi?", answer := "No.",
    keywords := [], is_active := true, created_by := 1, created_at := 0, updated_at := 0 }

def storeAfterShort : Store :=
  { schools := [demoSchool], faqs := [demoFaq, createdShortFaq], nextFaqId := 3 }

def deactivateOnlyInput : UpdateFaqInput :=
  { id := 1, category := none, question := none, answer := none, keywords := none,
    is_active := some false }

def deactivatedFaq : Faq := { demoFaq with is_active := false }

def deactivatedStore : Store := { demoStore with faqs := [deactivatedFaq] }

def kwSetInput : UpdateFaqInput :=
  { id := 1, category := none, question := none, answer := none,
    keywords := some ["parking"], is_active := none }

def kwSetFaq : Faq := { demoFaq with keywords := ["parking"] }

def kwSetStore : Store := { demoStore with faqs := [kwSetFaq] }

def invalidCreateInput : CreateFaqInput :=
  { school_id := 1, category := "admissions", question := "", answer := "Answer.",
    keywords := none }

def invalidUpdateInput : UpdateFaqInput :=
  { id := 1, category := some "bogus", question := none, answer := none, keywords := none,
    is_active := none }

def diningQuestion : String := "What dining options exist on campus?"

def diningAnswer : String := "Multiple cafeterias serve various cuisines."

def newCreateInput : CreateFaqInput :=
  { school_id := 1, category := "campus_life",
    question := "Is there student housing available?",
    answer := "Yes, dormitories exist.", keywords := some ["housing"] }

def newCreatedFaq : Faq :=
  { id := 2, school_id := 1, category := "campus_life",
    question := "Is there student housing available?",
    answer := "Yes, dormitories exist.", keywords := ["housing"],
    is_active := true, created_by := 1, created_at := 5, updated_at := 5 }

def newCreatedStore : Store :=
  { schools := [demoSchool], faqs := [demoFaq, newCreatedFaq], nextFaqId := 3 }

/-- The accumulator content of a `splitWsAux` state. -/
def optAcc : Option (List Char) → List Char
  | some acc => acc
  | none => []

instance : IsTotal Faq createdAtGe :=
  ⟨fun a b => Nat.le_total b.created_at a.created_at⟩

instance : IsTrans Faq createdAtGe :=
  ⟨fun _ _ _ hab hbc => Nat.le_trans hbc hab⟩

/-! ## Character lemmas -/

theorem toNat_ofNat_valid {n : Nat} (h : n.isValidChar) : (Char.ofNat n).toNat = n := by
  rw [Char.ofNat, dif_pos h]
  rfl

theorem toNat_lowerChar (c : Char) :
    (lowerChar c).toNat = if 65 ≤ c.toNat ∧ c.toNat ≤ 90 then c.toNat + 32 else c.toNat := by
  rw [lowerChar, Char.toLower]
  split
  · rename_i h
    exact toNat_ofNat_valid (Or.inl (by omega))
  · rfl

theorem isUpperAscii_lowerChar (c : Char) : isUpperAscii (lowerChar c) = false := by
  have h := toNat_lowerChar c
  simp only [isUpperAscii, decide_eq_false_iff_not]
  intro hc
  by_cases hup : 65 ≤ c.toNat ∧ c.toNat ≤ 90
  · rw [if_pos hup] at h
    omega
  · rw [if_neg hup] at h
    omega

theorem lowerChar_of_whitespace {c : Char} (h : c.isWhitespace = true) : lowerChar c = c := by
  simp only [Char.isWhitespace, Bool.or_eq_true, decide_eq_true_eq] at h
  rcases h with ((h | h) | h) | h <;> subst h <;> decide

theorem isUpperAscii_of_mem_lowerList {c : Char} {cs : List Char} (h : c ∈ lowerList cs) :
    isUpperAscii c = false := by
  obtain ⟨d, _, rfl⟩ := List.mem_map.mp h
  exact isUpperAscii_lowerChar d

theorem mem_lowerList_whitespace {cs : List Char} (hws : ∀ c ∈ cs, c.isWhitespace = true) :
    ∀ c ∈ lowerList cs, c.isWhitespace = true := by
  intro c hc
  obtain ⟨d, hd, rfl⟩ := List.mem_map.mp hc
  rw [lowerChar_of_whitespace (hws d hd)]
  exact hws d hd

/-! ## Contiguous-segment helpers -/

theorem seg_refl {α : Type} (l : List α) : l <:+: l := ⟨[], [], by simp⟩

theorem seg_cons {α : Type} {r l : List α} (c : α) (h : r <:+: l) : r <:+: c :: l := by
  obtain ⟨s, t, rfl⟩ := h
  exact ⟨c :: s, t, by simp⟩

theorem seg_append_left {α : Type} (x : List α) {r l : List α} (h : r <:+: l) :
    r <:+: x ++ l := by
  obtain ⟨s, t, rfl⟩ := h
  exact ⟨x ++ s, t, by simp⟩

theorem seg_mem {α : Type} {r L : List α} (h : r <:+: L) {c : α} (hc : c ∈ r) : c ∈ L := by
  obtain ⟨s, t, rfl⟩ := h
  simp only [List.mem_append]
  exact Or.inl (Or.inr hc)

/-! ## Run-extraction lemmas -/

theorem runsAux_seg {p : Char → Bool} :
    ∀ (cs acc : List Char), ∀ r ∈ runsAux p cs acc, r <:+: acc.reverse ++ cs := by
  intro cs
  induction cs with
  | nil =>
    intro acc r hr
    rw [runsAux] at hr
    split at hr
    · simp at hr
    · rw [List.mem_singleton] at hr
      subst hr
      exact ⟨[], [], by simp⟩
  | cons c cs ih =>
    intro acc r hr
    rw [runsAux] at hr
    split at hr
    · have h := ih (c :: acc) r hr
      rw [List.reverse_cons, List.append_assoc] at h
      simpa using h
    · split at hr
      · rename_i hacc
        rw [List.isEmpty_iff] at hacc
        subst hacc
        exact seg_cons c (by simpa using ih [] r hr)
      · rw [List.mem_cons] at hr
        rcases hr with rfl | hr
        · exact ⟨[], c :: cs, by simp⟩
        · exact seg_append_left acc.reverse (seg_cons c (by simpa using ih [] r hr))

theorem runsAux_all {p : Char → Bool} :
    ∀ (cs acc : List Char), (∀ x ∈ acc, p x = true) →
      ∀ r ∈ runsAux p cs acc, ∀ x ∈ r, p x = true := by
  intro cs
  induction cs with
  | nil =>
    intro acc hacc r hr x hx
    rw [runsAux] at hr
    split at hr
    · simp at hr
    · rw [List.mem_singleton] at hr
      subst hr
      exact hacc x (List.mem_reverse.mp hx)
  | cons c cs ih =>
    intro acc hacc r hr x hx
    rw [runsAux] at hr
    split at hr
    · rename_i hc
      refine ih (c :: acc) ?_ r hr x hx
      intro y hy
      rcases List.mem_cons.mp hy with rfl | hy
      · exact hc
      · exact hacc y hy
    · split at hr
      · exact ih acc hacc r hr x hx
      · rw [List.mem_cons] at hr
        rcases hr with rfl | hr
        · exact hacc x (List.mem_reverse.mp hx)
        · exact ih [] (by simp) r hr x hx

/-! ## Deduplication lemmas -/

theorem mem_dedupSeen {α : Type} [DecidableEq α] (seen l : List α) (x : α) :
    x ∈ dedupSeen seen l ↔ x ∈ l ∧ x ∉ seen := by
  induction l generalizing seen with
  | nil => simp [dedupSeen]
  | cons y ys ih =>
    rw [dedupSeen]
    split
    · rename_i hy
      rw [ih seen]
      constructor
      · rintro ⟨hx, hxs⟩
        exact ⟨List.mem_cons_of_mem y hx, hxs⟩
      · rintro ⟨hx, hxs⟩
        rcases List.mem_cons.mp hx with rfl | hx
        · exact absurd hy hxs
        · exact ⟨hx, hxs⟩
    · rename_i hy
      constructor
      · intro hx
        rcases List.mem_cons.mp hx with rfl | hx
        · exact ⟨List.mem_cons_self x ys, hy⟩
        · obtain ⟨h1, h2⟩ := (ih (y :: seen)).mp hx
          exact ⟨List.mem_cons_of_mem y h1,
            fun hs => h2 (List.mem_cons_of_mem y hs)⟩
      · rintro ⟨hx, hxs⟩
        rcases List.mem_cons.mp hx with rfl | hx
        · exact List.mem_cons_self x _
        · by_cases hxy : x = y
          · subst hxy
            exact List.mem_cons_self x _
          · refine List.mem_cons_of_mem y ((ih (y :: seen)).mpr ⟨hx, ?_⟩)
            intro hmem
            rcases List.mem_cons.mp hmem with h | h
            · exact hxy h
            · exact hxs h

theorem nodup_dedupSeen {α : Type} [DecidableEq α] (seen l : List α) :
    (dedupSeen seen l).Nodup := by
  induction l generalizing seen with
  | nil => simp [dedupSeen]
  | cons y ys ih =>
    rw [dedupSeen]
    split
    · exact ih seen
    · refine List.nodup_cons.mpr ⟨?_, ih (y :: seen)⟩
      intro hy
      exact ((mem_dedupSeen _ _ _).mp hy).2 (List.mem_cons_self y seen)

theorem firstPos_cons {α : Type} [DecidableEq α] (y x : α) (ys : List α) :
    firstPos x (y :: ys) = if y = x then 0 else firstPos x ys + 1 := rfl

theorem pairwise_firstPos_dedupSeen {α : Type} [DecidableEq α] (seen l : List α) :
    (dedupSeen seen l).Pairwise (fun a b => firstPos a l < firstPos b l) := by
  induction l generalizing seen with
  | nil => simp [dedupSeen]
  | cons y ys ih =>
    rw [dedupSeen]
    split
    · rename_i hy
      refine List.Pairwise.imp_of_mem ?_ (ih seen)
      intro a b ha hb hab
      have ha' := (mem_dedupSeen _ _ _).mp ha
      have hb' := (mem_dedupSeen _ _ _).mp hb
      have hay : y ≠ a := fun h => ha'.2 (h ▸ hy)
      have hby : y ≠ b := fun h => hb'.2 (h ▸ hy)
      rw [firstPos_cons, if_neg hay, firstPos_cons, if_neg hby]
      omega
    · rename_i hy
      refine List.pairwise_cons.mpr ⟨?_, ?_⟩
      · intro b hb
        have hb' := (mem_dedupSeen _ _ _).mp hb
        have hby : y ≠ b := fun h => hb'.2 (h ▸ List.mem_cons_self y seen)
        rw [firstPos_cons, if_pos rfl, firstPos_cons, if_neg hby]
        omega
      · refine List.Pairwise.imp_of_mem ?_ (ih (y :: seen))
        intro a b ha hb hab
        have ha' := (mem_dedupSeen _ _ _).mp ha
        have hb' := (mem_dedupSeen _ _ _).mp hb
        have hay : y ≠ a := fun h => ha'.2 (h ▸ List.mem_cons_self y seen)
        have hby : y ≠ b := fun h => hb'.2 (h ▸ List.mem_cons_self y seen)
        rw [firstPos_cons, if_neg hay, firstPos_cons, if_neg hby]
        omega

/-! ## Split lemmas -/

theorem splitWsAux_seg :
    ∀ (cs : List Char) (o : Option (List Char)), ∀ r ∈ splitWsAux cs o,
      r <:+: (optAcc o).reverse ++ cs := by
  intro cs
  induction cs with
  | nil =>
    intro o r hr
    match o with
    | some acc =>
      rw [splitWsAux, List.mem_singleton] at hr
      subst hr
      exact ⟨[], [], by simp [optAcc]⟩
    | none =>
      rw [splitWsAux, List.mem_singleton] at hr
      subst hr
      exact ⟨[], [], by simp [optAcc]⟩
  | cons c cs ih =>
    intro o r hr
    match o with
    | some acc =>
      rw [splitWsAux] at hr
      split at hr
      · rw [List.mem_cons] at hr
        rcases hr with rfl | hr
        · exact ⟨[], c :: cs, by simp [optAcc]⟩
        · exact seg_append_left acc.reverse (seg_cons c (by simpa [optAcc] using ih none r hr))
      · have h := ih (some (c :: acc)) r hr
        rw [optAcc, List.reverse_cons, List.append_assoc] at h
        simpa [optAcc] using h
    | none =>
      rw [splitWsAux] at hr
      split at hr
      · exact seg_cons c (by simpa [optAcc] using ih none r hr)
      · have h := ih (some [c]) r hr
        simpa [optAcc] using h

theorem splitWsAux_no_ws :
    ∀ (cs : List Char) (o : Option (List Char)),
      (∀ x ∈ optAcc o, x.isWhitespace = false) →
      ∀ r ∈ splitWsAux cs o, ∀ x ∈ r, x.isWhitespace = false := by
  intro cs
  induction cs with
  | nil =>
    intro o ho r hr x hx
    match o with
    | some acc =>
      rw [splitWsAux, List.mem_singleton] at hr
      subst hr
      exact ho x (List.mem_reverse.mp hx)
    | none =>
      rw [splitWsAux, List.mem_singleton] at hr
      subst hr
      simp at hx
  | cons c cs ih =>
    intro o ho r hr x hx
    match o with
    | some acc =>
      rw [splitWsAux] at hr
      split at hr
      · rw [List.mem_cons] at hr
        rcases hr with rfl | hr
        · exact ho x (List.mem_reverse.mp hx)
        · exact ih none (by simp [optAcc]) r hr x hx
      · rename_i hc
        refine ih (some (c :: acc)) ?_ r hr x hx
        intro y hy
        rcases List.mem_cons.mp hy with rfl | hy
        · simpa using hc
        · exact ho y hy
    | none =>
      rw [splitWsAux] at hr
      split at hr
      · exact ih none (by simp [optAcc]) r hr x hx
      · rename_i hc
        refine ih (some [c]) ?_ r hr x hx
        intro y hy
        simp only [optAcc, List.mem_singleton] at hy
        subst hy
        simpa using hc

/-- Every search term has more than two characters, contains no whitespace and
no ASCII upper-case letter, and occurs contiguously in the lowered query. -/
theorem searchTermsOf_spec (query : String) :
    ∀ t ∈ searchTermsOf query, 2 < t.length ∧
      (∀ c ∈ t.data, c.isWhitespace = false ∧ isUpperAscii c = false) ∧
      t.data <:+: lowerList query.data := by
  intro t ht
  rw [searchTermsOf] at ht
  obtain ⟨htin, hlen⟩ := List.mem_filter.mp ht
  obtain ⟨r, hr, rfl⟩ := List.mem_map.mp htin
  rw [splitWs] at hr
  have hseg : r <:+: lowerList query.data := by
    simpa [optAcc] using splitWsAux_seg (lowerList query.data) (some []) r hr
  refine ⟨by simpa using hlen, ?_, hseg⟩
  intro c hc
  have hc' : c ∈ r := hc
  refine ⟨splitWsAux_no_ws _ (some []) (by simp [optAcc]) r hr c hc', ?_⟩
  exact isUpperAscii_of_mem_lowerList (seg_mem hseg hc')

/-- A query whose characters are all whitespace produces no search terms. -/
theorem searchTermsOf_all_ws {query : String}
    (h : ∀ c ∈ query.data, c.isWhitespace = true) : searchTermsOf query = [] := by
  rw [searchTermsOf, List.filter_eq_nil_iff]
  intro t ht
  obtain ⟨r, hr, rfl⟩ := List.mem_map.mp ht
  rw [splitWs] at hr
  have hnil : r = [] := by
    cases hre : r with
    | nil => rfl
    | cons x xs =>
      have hxr : x ∈ r := by rw [hre]; exact List.mem_cons_self x xs
      have hnw := splitWsAux_no_ws _ (some []) (by simp [optAcc]) r hr x hxr
      have hseg := splitWsAux_seg (lowerList query.data) (some []) r hr
      have hin : x ∈ lowerList query.data := by
        refine seg_mem ?_ hxr
        simpa [optAcc] using hseg
      have hw := mem_lowerList_whitespace h x hin
      rw [hnw] at hw
      exact absurd hw (by simp)
  subst hnil
  simp

/-! ## Sorting lemmas -/

theorem mem_sortByCreatedAtDesc {l : List Faq} {f : Faq} :
    f ∈ sortByCreatedAtDesc l ↔ f ∈ l :=
  (List.perm_insertionSort createdAtGe l).mem_iff

theorem pairwise_sortByCreatedAtDesc (l : List Faq) :
    (sortByCreatedAtDesc l).Pairwise createdAtGe :=
  List.sorted_insertionSort createdAtGe l

/-! ## Join lemmas -/

theorem mem_joinRows {st : Store} {r : Faq × School} :
    r ∈ joinRows st ↔ r.1 ∈ st.faqs ∧ r.2 ∈ st.schools ∧ r.2.id = r.1.school_id := by
  obtain ⟨f, s⟩ := r
  simp only [joinRows, List.mem_flatMap, List.mem_map, List.mem_filter, beq_iff_eq,
    Prod.mk.injEq]
  constructor
  · rintro ⟨f', hf', s', ⟨hs', hid⟩, rfl, rfl⟩
    exact ⟨hf', hs', hid⟩
  · rintro ⟨hf, hs, hid⟩
    exact ⟨f, hf, s, ⟨hs, hid⟩, rfl, rfl⟩

/-! ## Claim theorems -/

/-- C1: every FaqEntry in the `faqs` sequence returned by `searchFaqs` is a row
of the store, is active, belongs to a school of the store whose domain equals
the input domain and which is itself active, and carries the requested category
whenever one was supplied. -/
theorem claim1_search_results_scoped (st : Store) (input : ChatbotQueryInput) (f : Faq)
    (hf : f ∈ (searchFaqs st input).faqs) :
    f ∈ st.faqs ∧ f.is_active = true ∧
      (∃ s ∈ st.schools, s.id = f.school_id ∧ s.domain = input.school_domain ∧
        s.is_active = true) ∧
      (∀ c, input.category = some c → f.category = c) := by
  simp only [searchFaqs] at hf
  have h1 := List.mem_of_mem_take hf
  rw [mem_sortByCreatedAtDesc] at h1
  obtain ⟨rp, hrp, hfst⟩ := List.mem_map.mp h1
  obtain ⟨hjoin, hcond⟩ := List.mem_filter.mp hrp
  rw [mem_joinRows] at hjoin
  obtain ⟨hfaq, hsch, hid⟩ := hjoin
  subst hfst
  simp only [searchCond, Bool.and_eq_true, beq_iff_eq] at hcond
  obtain ⟨⟨⟨⟨hdom, hact⟩, hsact⟩, hcat⟩, -⟩ := hcond
  refine ⟨hfaq, hact, ⟨rp.2, hsch, hid, hdom, hsact⟩, ?_⟩
  intro c hc
  rw [hc] at hcat
  simpa using hcat

/-- C2: the returned `faqs` sequence has length at most 20, is ordered by
`created_at` descending, and `total_results` is the length of the already
capped sequence. -/
theorem claim2_search_cap_order_total (st : Store) (input : ChatbotQueryInput) :
    (searchFaqs st input).faqs.length ≤ 20 ∧
      (searchFaqs st input).faqs.Pairwise (fun a b => b.created_at ≤ a.created_at) ∧
      (searchFaqs st input).total_results = (searchFaqs st input).faqs.length := by
  refine ⟨?_, ?_, rfl⟩
  · simp only [searchFaqs]
    exact List.length_take_le 20 _
  · simp only [searchFaqs]
    exact (pairwise_sortByCreatedAtDesc _).sublist (List.take_sublist 20 _)

/-- C3: `suggested_categories` equals `getAvailableCategories` on the same
domain (hence does not depend on the query text or the category filter), holds
no duplicates, and contains exactly the categories of the active FAQs of an
active school with the input domain — in particular it is empty when no such
FAQ exists. -/
theorem claim3_suggested_categories (st : Store) (input : ChatbotQueryInput) :
    (searchFaqs st input).suggested_categories =
        getAvailableCategories st input.school_domain ∧
      (searchFaqs st input).suggested_categories.Nodup ∧
      ∀ c, c ∈ (searchFaqs st input).suggested_categories ↔
        ∃ f ∈ st.faqs, f.category = c ∧ f.is_active = true ∧
          ∃ s ∈ st.schools, s.id = f.school_id ∧ s.domain = input.school_domain ∧
            s.is_active = true := by
  refine ⟨rfl, nodup_dedupSeen _ _, ?_⟩
  intro c
  show c ∈ dedupKeepFirst _ ↔ _
  rw [dedupKeepFirst, mem_dedupSeen]
  simp only [List.not_mem_nil, not_false_iff, and_true, List.mem_map, List.mem_filter]
  constructor
  · rintro ⟨r, ⟨hjoin, hcond⟩, rfl⟩
    rw [mem_joinRows] at hjoin
    simp only [activeTenantCond, Bool.and_eq_true, beq_iff_eq] at hcond
    exact ⟨r.1, hjoin.1, rfl, hcond.1.2, r.2, hjoin.2.1, hjoin.2.2, hcond.1.1, hcond.2⟩
  · rintro ⟨f, hf, rfl, hact, s, hs, hid, hdom, hsact⟩
    refine ⟨(f, s), ⟨mem_joinRows.mpr ⟨hf, hs, hid⟩, ?_⟩, rfl⟩
    simp [activeTenantCond, hdom, hact, hsact]

/-- C4 (counterexample): a successful create through the validated pipeline,
with no keywords supplied, can store an empty keywords set when the question
and answer contain no word run of length three or more — refuting the claim
that only an explicit empty list in an update yields empty keywords. -/
theorem claim4_counterexample :
    createFaqChecked demoStore shortTextInput 1 0 =
        (Except.ok createdShortFaq, storeAfterShort) ∧
      createdShortFaq.keywords = [] ∧ shortTextInput.keywords = none := by
  refine ⟨?_, rfl, rfl⟩
  rfl

/-- C4 (amended): after a successful create, the stored keywords can only be
empty when the derivation from the supplied question and answer is itself
empty; after a successful update, only when the caller supplied an empty list,
or supplied none of keywords/question/answer (so the previous, possibly empty,
value is kept), or the recomputation from the effective question and answer is
empty. -/
theorem claim4_keywords_amended :
    (∀ (st : Store) (input : CreateFaqInput) (createdBy now : Nat) (f : Faq) (st' : Store),
        createFaq st input createdBy now = Except.ok (f, st') →
        f.keywords = [] → generateKeywords input.question input.answer = []) ∧
    (∀ (st : Store) (input : UpdateFaqInput) (f : Faq) (st' : Store) (cur : Faq),
        updateFaq st input = Except.ok (f, st') →
        getFaqById st input.id = some cur →
        f.keywords = [] →
        input.keywords = some [] ∨
          (input.keywords = none ∧ input.question = none ∧ input.answer = none ∧
            cur.keywords = []) ∨
          (input.keywords = none ∧
            generateKeywords (jsOrElse input.question cur.question)
              (jsOrElse input.answer cur.answer) = [])) := by
  constructor
  · intro st input createdBy now f st' h hk
    rw [createFaq] at h
    split at h
    · exact absurd h (by simp)
    · simp only [Except.ok.injEq, Prod.mk.injEq] at h
      obtain ⟨hf, -⟩ := h
      subst hf
      cases hkw : input.keywords with
      | none =>
        revert hk
        rw [hkw]
        show generateKeywords input.question input.answer = [] →
          generateKeywords input.question input.answer = []
        exact id
      | some ks =>
        revert hk
        rw [hkw]
        show (if 0 < ks.length then ks else generateKeywords input.question input.answer) = [] →
          generateKeywords input.question input.answer = []
        intro hk
        by_cases hpos : 0 < ks.length
        · rw [if_pos hpos] at hk
          subst hk
          simp at hpos
        · rw [if_neg hpos] at hk
          exact hk
  · intro st input f st' cur h hcur hk
    rw [updateFaq, hcur] at h
    simp only [Except.ok.injEq, Prod.mk.injEq] at h
    obtain ⟨hf, -⟩ := h
    subst hf
    simp only [applyValues, updateValuesFor] at hk
    revert hk
    cases hkws : input.keywords with
    | some ks =>
      intro hk
      simp only [Option.getD_some] at hk
      subst hk
      exact Or.inl rfl
    | none =>
      cases hq : input.question with
      | some q =>
        intro hk
        simp only [Option.isSome_some, Bool.true_or, if_true, Option.getD_some] at hk
        exact Or.inr (Or.inr ⟨rfl, hk⟩)
      | none =>
        cases ha : input.answer with
        | some a =>
          intro hk
          simp only [Option.isSome_some, Option.isSome_none, Bool.or_true, if_true,
            Option.getD_some] at hk
          exact Or.inr (Or.inr ⟨rfl, hk⟩)
        | none =>
          intro hk
          simp only [Option.isSome_none, Bool.or_self, if_false, Option.getD_none] at hk
          exact Or.inr (Or.inl ⟨rfl, rfl, rfl, hk⟩)

/-- C5: a create or update input with an empty question, an empty answer, or a
category outside the closed enumeration is rejected by the zod validation of
`server/src/schema.ts` with a `ValidationFailure`, before the handler runs, so
the store is left unchanged. -/
theorem claim5_validation_rejects (st : Store) (createdBy now : Nat) :
    (∀ input : CreateFaqInput,
        input.question = "" ∨ input.answer = "" ∨ validCategory input.category = false →
        createFaqChecked st input createdBy now =
          (Except.error FaqError.validationFailure, st)) ∧
    (∀ input : UpdateFaqInput,
        input.question = some "" ∨ input.answer = some "" ∨
          (∃ c, input.category = some c ∧ validCategory c = false) →
        updateFaqChecked st input = (Except.error FaqError.validationFailure, st)) := by
  constructor
  · intro input h
    have hv : validateCreateFaq input = false := by
      rcases h with h | h | h <;> simp [validateCreateFaq, h]
    rw [createFaqChecked, if_neg (by simp [hv])]
  · intro input h
    have hv : validateUpdateFaq input = false := by
      rcases h with h | h | ⟨c, hc, hval⟩
      · simp [validateUpdateFaq, h]
      · simp [validateUpdateFaq, h]
      · simp [validateUpdateFaq, hc, hval]
    rw [updateFaqChecked, if_neg (by simp [hv])]

/-- C6: keyword derivation never fails — on empty texts it returns the empty
list — and every derived keyword has at least three characters, contains no
ASCII upper-case letter, and occurs contiguously in the lower-cased
concatenation of question and answer; the result is duplicate-free and lists
the derived words in strictly increasing order of first occurrence. -/
theorem claim6_derive_keywords (q a : String) :
    (∀ kw ∈ generateKeywords q a, 3 ≤ kw.length ∧
        (∀ c ∈ kw.data, isUpperAscii c = false) ∧
        kw.data <:+: lowerList (q ++ " " ++ a).data) ∧
      (generateKeywords q a).Nodup ∧
      (generateKeywords q a).Pairwise (fun x y =>
        firstPos x (keywordCandidates q a) < firstPos y (keywordCandidates q a)) ∧
      generateKeywords "" "" = [] := by
  refine ⟨?_, nodup_dedupSeen _ _, pairwise_firstPos_dedupSeen _ _, by decide⟩
  intro kw hkw
  rw [generateKeywords, dedupKeepFirst, mem_dedupSeen] at hkw
  obtain ⟨hkw, -⟩ := hkw
  rw [keywordCandidates] at hkw
  obtain ⟨r, hr, rfl⟩ := List.mem_map.mp hkw
  obtain ⟨hrin, hlen⟩ := List.mem_filter.mp hr
  have hseg : r <:+: lowerList (q ++ " " ++ a).data := by
    simpa using runsAux_seg (lowerList (q ++ " " ++ a).data) [] r hrin
  refine ⟨by simpa using hlen, ?_, hseg⟩
  intro c hc
  exact isUpperAscii_of_mem_lowerList (seg_mem hseg hc)

/-- C7: tokenization lower-cases, splits on whitespace runs and keeps only
tokens longer than two characters; whitespace-only queries (and the concrete
all-short-token query) yield no terms without error, and with no terms the
search result coincides with the filter-only computation (tenant, active
flags, optional category — no term predicate). -/
theorem claim7_tokenization (st : Store) (input : ChatbotQueryInput) :
    (∀ t ∈ searchTermsOf input.query, 2 < t.length ∧
        (∀ c ∈ t.data, c.isWhitespace = false ∧ isUpperAscii c = false) ∧
        t.data <:+: lowerList input.query.data) ∧
      ((∀ c ∈ input.query.data, c.isWhitespace = true) → searchTermsOf input.query = []) ∧
      searchTermsOf "" = [] ∧
      searchTermsOf "to be or" = [] ∧
      (searchTermsOf input.query = [] →
        (searchFaqs st input).faqs = specFilterOnlyFaqs st input) := by
  refine ⟨searchTermsOf_spec input.query, searchTermsOf_all_ws, by decide, by decide, ?_⟩
  intro hterms
  simp only [searchFaqs, specFilterOnlyFaqs, hterms]
  have hcong : ∀ r ∈ joinRows st, searchCond input [] r =
      (r.2.domain == input.school_domain && r.1.is_active && r.2.is_active
        && (match input.category with
            | some c => r.1.category == c
            | none => true)) := by
    intro r _
    simp [searchCond]
  rw [List.filter_congr hcong]

/-- C8: on update, explicitly supplied keywords are stored exactly as given;
otherwise the keywords are kept when neither question nor answer is supplied,
and recomputed from the effective (resulting) question and answer when at
least one of them is supplied (and supplied values are non-empty, as
validation guarantees). -/
theorem claim8_update_keywords (st : Store) (input : UpdateFaqInput) (f : Faq) (st' : Store)
    (h : updateFaq st input = Except.ok (f, st')) :
    (∀ ks, input.keywords = some ks → f.keywords = ks) ∧
    (input.keywords = none → input.question = none → input.answer = none →
      ∃ cur, getFaqById st input.id = some cur ∧ f.keywords = cur.keywords) ∧
    (input.keywords = none → input.question ≠ none ∨ input.answer ≠ none →
      (∀ q, input.question = some q → q ≠ "") →
      (∀ a, input.answer = some a → a ≠ "") →
      f.keywords = generateKeywords f.question f.answer) := by
  rw [updateFaq] at h
  cases hcur : getFaqById st input.id with
  | none =>
    rw [hcur] at h
    exact absurd h (by simp)
  | some cur =>
    rw [hcur] at h
    simp only [Except.ok.injEq, Prod.mk.injEq] at h
    obtain ⟨hf, -⟩ := h
    subst hf
    refine ⟨?_, ?_, ?_⟩
    · intro ks hks
      simp [applyValues, updateValuesFor, hks]
    · intro hk hq ha
      exact ⟨cur, rfl, by simp [applyValues, updateValuesFor, hk, hq, ha]⟩
    · intro hk hqa hq' ha'
      cases hq : input.question with
      | none =>
        cases ha : input.answer with
        | none =>
          rw [hq, ha] at hqa
          rcases hqa with h | h <;> exact absurd rfl h
        | some a =>
          have hane : (a == "") = false := by
            have := ha' a ha
            simp [this]
          simp [applyValues, updateValuesFor, hk, hq, ha, jsOrElse, hane]
      | some q =>
        have hqne : (q == "") = false := by
          have := hq' q hq
          simp [this]
        cases ha : input.answer with
        | none =>
          simp [applyValues, updateValuesFor, hk, hq, ha, jsOrElse, hqne]
        | some a =>
          have hane : (a == "") = false := by
            have := ha' a ha
            simp [this]
          simp [applyValues, updateValuesFor, hk, hq, ha, jsOrElse, hqne, hane]

/-- C9: an update supplying only `is_active: false` leaves question, answer,
category and keywords unchanged — both in the returned row and across the
stored table — and sets `is_active` to false. -/
theorem claim9_deactivate_frame (st : Store) (input : UpdateFaqInput) (f : Faq) (st' : Store)
    (hcat : input.category = none) (hq : input.question = none) (ha : input.answer = none)
    (hkw : input.keywords = none) (hact : input.is_active = some false)
    (h : updateFaq st input = Except.ok (f, st')) :
    (∃ cur, getFaqById st input.id = some cur ∧
      f.question = cur.question ∧ f.answer = cur.answer ∧ f.category = cur.category ∧
      f.keywords = cur.keywords ∧ f.is_active = false) ∧
    st'.faqs = st.faqs.map
      (fun g => if g.id == input.id then { g with is_active := false } else g) := by
  rw [updateFaq] at h
  cases hcur : getFaqById st input.id with
  | none =>
    rw [hcur] at h
    exact absurd h (by simp)
  | some cur =>
    rw [hcur] at h
    simp only [Except.ok.injEq, Prod.mk.injEq] at h
    obtain ⟨hf, hst⟩ := h
    constructor
    · refine ⟨cur, rfl, ?_⟩
      rw [← hf]
      simp [applyValues, updateValuesFor, hcat, hq, ha, hkw, hact]
    · rw [← hst]
      simp only
      congr 1
      funext g
      simp [applyValues, updateValuesFor, hcat, hq, ha, hkw, hact]

/-- C10: a successful create always stores the new FaqEntry with
`is_active = true` — the input carries no activity flag and the handler fixes
it to true — so an inactive entry cannot be created directly. -/
theorem claim10_create_active (st : Store) (input : CreateFaqInput) (createdBy now : Nat)
    (f : Faq) (st' : Store) (h : createFaq st input createdBy now = Except.ok (f, st')) :
    f.is_active = true ∧ st'.faqs = st.faqs ++ [f] := by
  rw [createFaq] at h
  split at h
  · exact absurd h (by simp)
  · simp only [Except.ok.injEq, Prod.mk.injEq] at h
    obtain ⟨hf, hst⟩ := h
    subst hf
    exact ⟨rfl, by rw [← hst]⟩

/-! ## Witnesses -/

/-- Witness for C1 at the demo store and query. -/
theorem claim1_witness :
    demoFaq ∈ (searchFaqs demoStore demoQuery).faqs ∧
      (demoFaq ∈ demoStore.faqs ∧ demoFaq.is_active = true ∧
        (∃ s ∈ demoStore.schools, s.id = demoFaq.school_id ∧
          s.domain = demoQuery.school_domain ∧ s.is_active = true) ∧
        (∀ c, demoQuery.category = some c → demoFaq.category = c)) :=
  ⟨by decide, claim1_search_results_scoped demoStore demoQuery demoFaq (by decide)⟩

/-- Witness for C2 at the demo store and query. -/
theorem claim2_witness : (searchFaqs demoStore demoQuery).faqs.length ≤ 20 :=
  (claim2_search_cap_order_total demoStore demoQuery).1

/-- Witness for C3 at the demo store and query. -/
theorem claim3_witness :
    (searchFaqs demoStore demoQuery).suggested_categories =
      getAvailableCategories demoStore demoQuery.school_domain :=
  (claim3_suggested_categories demoStore demoQuery).1

/-- Witness for the amended C4: a concrete successful create whose derived
keyword set is empty. -/
theorem claim4_witness :
    createFaq demoStore shortTextInput 1 0 = Except.ok (createdShortFaq, storeAfterShort) ∧
      createdShortFaq.keywords = [] ∧
      generateKeywords shortTextInput.question shortTextInput.answer = [] :=
  ⟨by rfl, by rfl,
    claim4_keywords_amended.1 demoStore shortTextInput 1 0 createdShortFaq storeAfterShort
      (by rfl) (by rfl)⟩

/-- Witness for C5 at concrete invalid inputs. -/
theorem claim5_witness :
    createFaqChecked demoStore invalidCreateInput 1 0 =
        (Except.error FaqError.validationFailure, demoStore) ∧
      updateFaqChecked demoStore invalidUpdateInput =
        (Except.error FaqError.validationFailure, demoStore) :=
  ⟨(claim5_validation_rejects demoStore 1 0).1 invalidCreateInput (Or.inl rfl),
    (claim5_validation_rejects demoStore 1 0).2 invalidUpdateInput
      (Or.inr (Or.inr ⟨"bogus", rfl, by decide⟩))⟩

/-- Witness for C6 at the dining scenario of spec section 8. -/
theorem claim6_witness :
    "dining" ∈ generateKeywords diningQuestion diningAnswer ∧
      (3 ≤ "dining".length ∧ (∀ c ∈ "dining".data, isUpperAscii c = false) ∧
        "dining".data <:+: lowerList (diningQuestion ++ " " ++ diningAnswer).data) :=
  ⟨by decide, (claim6_derive_keywords diningQuestion diningAnswer).1 "dining" (by decide)⟩

/-- Witness for C7 at the demo query. -/
theorem claim7_witness :
    "admission" ∈ searchTermsOf demoQuery.query ∧
      (2 < "admission".length ∧
        (∀ c ∈ "admission".data, c.isWhitespace = false ∧ isUpperAscii c = false) ∧
        "admission".data <:+: lowerList demoQuery.query.data) :=
  ⟨by decide, (claim7_tokenization demoStore demoQuery).1 "admission" (by decide)⟩

/-- Witness for C8: an update with explicitly supplied keywords stores them as
given. -/
theorem claim8_witness :
    updateFaq demoStore kwSetInput = Except.ok (kwSetFaq, kwSetStore) ∧
      kwSetFaq.keywords = ["parking"] :=
  ⟨by rfl,
    (claim8_update_keywords demoStore kwSetInput kwSetFaq kwSetStore (by rfl)).1
      ["parking"] rfl⟩

/-- Witness for C9: deactivating the demo FAQ changes only `is_active`. -/
theorem claim9_witness :
    updateFaq demoStore deactivateOnlyInput = Except.ok (deactivatedFaq, deactivatedStore) ∧
      ((∃ cur, getFaqById demoStore deactivateOnlyInput.id = some cur ∧
          deactivatedFaq.question = cur.question ∧ deactivatedFaq.answer = cur.answer ∧
          deactivatedFaq.category = cur.category ∧ deactivatedFaq.keywords = cur.keywords ∧
          deactivatedFaq.is_active = false) ∧
        deactivatedStore.faqs = demoStore.faqs.map
          (fun g => if g.id == deactivateOnlyInput.id then { g with is_active := false }
            else g)) :=
  ⟨by rfl,
    claim9_deactivate_frame demoStore deactivateOnlyInput deactivatedFaq deactivatedStore
      rfl rfl rfl rfl rfl (by rfl)⟩

/-- Witness for C10: a concrete successful create stores an active row. -/
theorem claim10_witness :
    createFaq demoStore newCreateInput 1 5 = Except.ok (newCreatedFaq, newCreatedStore) ∧
      (newCreatedFaq.is_active = true ∧
        newCreatedStore.faqs = demoStore.faqs ++ [newCreatedFaq]) :=
  ⟨by rfl,
    claim10_create_active demoStore newCreateInput 1 5 newCreatedFaq newCreatedStore (by rfl)⟩

end FaqBot
